import Mathlib

/-!
Shallow embedding of the BabySchlaf sync server (src/server.js).

The server is an Express app over a SQLite database with three tables:
families (code PRIMARY KEY, created_at, last_sync),
sync_data (family_code, device_id, data, updated_at; PRIMARY KEY family_code+device_id),
entries (family_code, entry_id, data, deleted, updated_at; PRIMARY KEY family_code+entry_id).

We model the database as lists of rows and each HTTP handler as a pure
function from a store and the request fields to a response and the new
store. Timestamps are Nat (unix seconds). The opaque JSON payload of a
pushed entry is modelled by the Entry structure: its id, its optional
deletion marker, its optional timestamp override, and an opaque rest
field standing for the remaining JSON properties. JavaScript truthiness
of the string-typed request fields is modelled by comparison with the
empty string, and truthiness of a Nat-typed field by comparison with 0.
-/

/-- A pushed entry object, as it appears in the request body of
POST /api/sync/push. The field named deletedMark models the optional
boolean field of the JSON object that is spelled with a leading
underscore followed by the word deleted, and tsMark models the optional
unix-seconds field spelled with a leading underscore followed by ts;
rest stands for the remaining opaque JSON properties of the object. -/
structure Entry where
  id : String
  deletedMark : Bool
  tsMark : Option Nat
  rest : String
deriving DecidableEq, Repr

/-- A row of the families table. -/
structure FamilyRow where
  code : String
  created_at : Nat
  last_sync : Nat
deriving DecidableEq, Repr

/-- A row of the sync_data table: the per-device profile snapshot.
The data column holds the JSON-serialized babies array; we model it as
a list of opaque strings. -/
structure SyncRow where
  family_code : String
  device_id : String
  data : List String
  updated_at : Nat
deriving DecidableEq, Repr

/-- A row of the entries table. The data column holds the
JSON-serialized pushed entry; we model it as the Entry itself. -/
structure EntryRow where
  family_code : String
  entry_id : String
  data : Entry
  deleted : Bool
  updated_at : Nat
deriving DecidableEq, Repr

/-- The whole persistent store: the three SQLite tables. -/
structure Store where
  families : List FamilyRow
  sync_data : List SyncRow
  entries : List EntryRow
deriving DecidableEq, Repr

/-- SELECT * FROM families WHERE code = ? (codes are the primary key). -/
def findFamily (s : Store) (c : String) : Option FamilyRow :=
  s.families.find? (fun f => f.code == c)

/-- JavaScript String.prototype.toUpperCase restricted to the characters
that occur in family codes: uppercase each character. -/
def jsToUpper (s : String) : String :=
  String.mk (s.data.map Char.toUpper)

/-- The value stored in updated_at for a pushed entry: the expression
e._ts || now of the source. JavaScript || takes the right operand when
the left one is absent or 0 (falsy). -/
def tsOrNow (ts : Option Nat) (now : Nat) : Nat :=
  match ts with
  | some v => if v = 0 then now else v
  | none => now

/-- Does an entries row have the given primary key? -/
def entryKeyIs (r : EntryRow) (c eid : String) : Bool :=
  r.family_code == c && r.entry_id == eid

/-- INSERT OR REPLACE INTO entries: drop any row with the same
primary key, keep the new row. -/
def upsertEntryRow (rows : List EntryRow) (r : EntryRow) : List EntryRow :=
  r :: rows.filter (fun q => ! entryKeyIs q r.family_code r.entry_id)

/-- Does a sync_data row have the given primary key? -/
def syncKeyIs (r : SyncRow) (c d : String) : Bool :=
  r.family_code == c && r.device_id == d

/-- INSERT OR REPLACE INTO sync_data. -/
def upsertSyncRow (rows : List SyncRow) (r : SyncRow) : List SyncRow :=
  r :: rows.filter (fun q => ! syncKeyIs q r.family_code r.device_id)

/-- SELECT from entries by primary key (helper for stating properties). -/
def findEntryRowL (rows : List EntryRow) (c eid : String) : Option EntryRow :=
  rows.find? (fun r => entryKeyIs r c eid)

/-- SELECT from the entries table of a store by primary key. -/
def findEntryRow (s : Store) (c eid : String) : Option EntryRow :=
  findEntryRowL s.entries c eid

/-- SELECT from sync_data by primary key. -/
def findSyncRow (s : Store) (c d : String) : Option SyncRow :=
  s.sync_data.find? (fun r => syncKeyIs r c d)

/-- The entries row written for one pushed entry e of family c at server
time now: data is the serialized entry, deleted comes from the deletion
marker of the entry, updated_at from its timestamp override if truthy,
else now. -/
def entryRowOf (c : String) (now : Nat) (e : Entry) : EntryRow :=
  { family_code := c
    entry_id := e.id
    data := e
    deleted := e.deletedMark
    updated_at := tsOrNow e.tsMark now }

/-- One iteration of the upsert loop inside db.transaction in the push
handler. -/
def pushEntryUpsert (c : String) (now : Nat) (rows : List EntryRow)
    (e : Entry) : List EntryRow :=
  upsertEntryRow rows (entryRowOf c now e)

/-- UPDATE families SET last_sync = now WHERE code = c, applied to one
row. -/
def touchFamily (c : String) (now : Nat) (f : FamilyRow) : FamilyRow :=
  if f.code = c then { f with last_sync := now } else f

/-- Status part of the push handler response. -/
inductive PushStatus where
  | badRequest
  | notFound
  | okSynced (synced : Nat)
deriving DecidableEq, Repr

/-- POST /api/sync/push. Validates code and device_id (JavaScript
truthiness: absent or empty fails), looks up the family, then
1. upserts the sync_data snapshot row with the babies payload or the
   empty array,
2. upserts every entry of the batch in order inside one transaction,
3. sets last_sync of the family to now,
and answers with the number of entries in the batch. Returns the
response status together with the store after the request. -/
def push (s : Store) (now : Nat) (code device_id : Option String)
    (babies : Option (List String)) (entries : Option (List Entry)) :
    PushStatus × Store :=
  match code, device_id with
  | some c, some d =>
    if c = "" ∨ d = "" then (.badRequest, s)
    else
      match findFamily s c with
      | none => (.notFound, s)
      | some _ =>
        let snap : SyncRow :=
          { family_code := c, device_id := d
            data := babies.getD [], updated_at := now }
        let s1 : Store := { s with sync_data := upsertSyncRow s.sync_data snap }
        let es := entries.getD []
        let s2 : Store :=
          if es.length > 0 then
            { s1 with entries := es.foldl (pushEntryUpsert c now) s1.entries }
          else s1
        let s3 : Store := { s2 with families := s2.families.map (touchFamily c now) }
        (.okSynced es.length, s3)
  | _, _ => (.badRequest, s)

/-- The sync_data row a push writes: the babies payload of the request
or the empty array, at server receipt time. -/
def snapRowOf (c d : String) (babies : Option (List String)) (now : Nat) :
    SyncRow :=
  { family_code := c, device_id := d
    data := babies.getD [], updated_at := now }

/-- Models the push handler when the SQLite upsert of the entry at index
k of the batch throws inside db.transaction. In the source only the
entry loop is wrapped in db.transaction: the sync_data INSERT OR REPLACE
above it has already committed as its own implicit transaction when the
batch starts, the explicit transaction rolls back every entry upsert of
the batch, the last_sync UPDATE below it is never reached because the
exception propagates, and the request fails. The result is the store as
committed after such a failing request, or none when the scenario is not
realizable (validation or the family lookup already failed, or there is
no entry at index k to fail). -/
def pushEntryFailure (s : Store) (now : Nat) (c d : String)
    (babies : Option (List String)) (es : List Entry) (k : Nat) :
    Option Store :=
  if c = "" ∨ d = "" then none
  else
    match findFamily s c with
    | none => none
    | some _ =>
      if k < es.length then
        some { s with sync_data := upsertSyncRow s.sync_data (snapRowOf c d babies now) }
      else none

/-- The entry object a pull response carries for a stored row: the
parsed data column, with the deletion marker forced to true when the
deleted column of the row is set. -/
def annotate (r : EntryRow) : Entry :=
  if r.deleted then { r.data with deletedMark := true } else r.data

/-- A device element of the pull response: the sync_data row without
its family_code. -/
structure DeviceOut where
  device_id : String
  babies : List String
  updated_at : Nat
deriving DecidableEq, Repr

/-- Response of the pull handler. -/
inductive PullResult where
  | badRequest
  | notFound
  | okRes (entries : List Entry) (devices : List DeviceOut) (server_time : Nat)
deriving DecidableEq, Repr

/-- POST /api/sync/pull. Validates code (truthiness), looks up the
family, then returns the entries of the family with updated_at strictly
greater than the since watermark (absent or 0 becomes 0), each
annotated with the deletion marker when its deleted column is set,
together with all sync_data rows of the family and the server time. -/
def pull (s : Store) (now : Nat) (code : Option String)
    (since : Option Nat) : PullResult :=
  match code with
  | none => .badRequest
  | some c =>
    if c = "" then .badRequest
    else
      match findFamily s c with
      | none => .notFound
      | some _ =>
        let sinceTs := since.getD 0
        let rows := s.entries.filter
          (fun r => r.family_code == c && decide (sinceTs < r.updated_at))
        let devs := s.sync_data.filter (fun r => r.family_code == c)
        .okRes (rows.map annotate)
          (devs.map (fun r => ⟨r.device_id, r.data, r.updated_at⟩)) now

/-- Response of the join handler. -/
inductive JoinResult where
  | badRequest
  | notFound
  | okCode (code : String)
deriving DecidableEq, Repr

/-- POST /api/family/join. Rejects an absent or empty code (truthiness)
and a code whose length is not 6, before any store access; otherwise
looks the family up under the uppercased code and answers with the
stored code. -/
def join (s : Store) (code : Option String) : JoinResult :=
  match code with
  | none => .badRequest
  | some c =>
    if c = "" ∨ c.length ≠ 6 then .badRequest
    else
      match findFamily s (jsToUpper c) with
      | none => .notFound
      | some f => .okCode f.code

/-- The 32-character code alphabet of genCode: uppercase letters and
digits without I, O, 0 and 1. -/
def codeAlphabet : List Char :=
  ['A', 'B', 'C', 'D', 'E', 'F', 'G', 'H', 'J', 'K', 'L', 'M',
   'N', 'P', 'Q', 'R', 'S', 'T', 'U', 'V', 'W', 'X', 'Y', 'Z',
   '2', '3', '4', '5', '6', '7', '8', '9']

theorem codeAlphabet_length : codeAlphabet.length = 32 := rfl

/-- The alphabet character selected by one call of crypto.randomInt. -/
def codeChar (i : Fin 32) : Char :=
  codeAlphabet.get (Fin.cast codeAlphabet_length.symm i)

/-- One iteration of the do-while loop of genCode: six random alphabet
indices give a six-character candidate code. The random source is
modelled by the function from position to drawn index. -/
def buildCode (pick : Fin 6 → Fin 32) : String :=
  String.mk ((List.finRange 6).map (fun i => codeChar (pick i)))

/-- SELECT 1 FROM families WHERE code = ?, as the loop condition of
genCode. -/
def codeExists (s : Store) (code : String) : Bool :=
  s.families.any (fun f => f.code == code)

/-- genCode: repeat drawing candidate codes until one is not yet in the
families table. The unbounded randomized do-while loop is modelled by
the stream of its draws, one pick function per iteration; none means the
modelled stream was exhausted before a fresh code appeared. -/
def genCode (s : Store) : List (Fin 6 → Fin 32) → Option String
  | [] => none
  | pick :: rest =>
    if codeExists s (buildCode pick) then genCode s rest
    else some (buildCode pick)

/-- POST /api/family/create: generate a fresh code and INSERT the new
family row (created_at and last_sync take the unixepoch default). -/
def createFamily (s : Store) (now : Nat) (rand : List (Fin 6 → Fin 32)) :
    Option (String × Store) :=
  (genCode s rand).map
    (fun code =>
      (code, { s with families := { code := code, created_at := now, last_sync := now } :: s.families }))

/-! Concrete fixtures used by witnesses and counterexamples. -/

/-- A store holding one family with code ABCDEF and nothing else. -/
def famStore : Store :=
  { families := [{ code := "ABCDEF", created_at := 50, last_sync := 50 }]
    sync_data := []
    entries := [] }

/-- A plain pushed entry with a truthy timestamp override. -/
def entE1 : Entry := { id := "e1", deletedMark := false, tsMark := some 100, rest := "x" }

/-- A second pushed entry. -/
def entE2 : Entry := { id := "e2", deletedMark := false, tsMark := some 150, rest := "y" }

/-- A pushed entry whose timestamp override is the falsy value 0. -/
def entZero : Entry := { id := "e0", deletedMark := false, tsMark := some 0, rest := "z" }

/-- A tombstone push for entry e1 at a later client timestamp. -/
def entDel : Entry := { id := "e1", deletedMark := true, tsMark := some 200, rest := "x" }

/-! Helper lemmas about find?, filter and the upsert fold. -/

/-- find? is unchanged by a filter that keeps everything the searched
predicate accepts. -/
theorem find_filter_of_imp {α : Type} (p q : α → Bool) (l : List α)
    (h : ∀ x, p x = true → q x = true) :
    (l.filter q).find? p = l.find? p := by
  induction l with
  | nil => rfl
  | cons a t ih =>
    by_cases hq : q a = true
    · by_cases hp : p a = true
      · simp [List.filter_cons, hq, List.find?_cons, hp]
      · simp [List.filter_cons, hq, List.find?_cons, hp, ih]
    · have hp : p a = false := by
        cases hpa : p a
        · rfl
        · exact absurd (h a hpa) hq
      simp [List.filter_cons, hq, List.find?_cons, hp, ih]

/-- Looking up the freshly upserted key finds the new row. -/
theorem findEntryRowL_upsert_self (rows : List EntryRow) (r : EntryRow) :
    findEntryRowL (upsertEntryRow rows r) r.family_code r.entry_id = some r := by
  simp [findEntryRowL, upsertEntryRow, List.find?_cons, entryKeyIs]

/-- Looking up any other key is unchanged by an upsert. -/
theorem findEntryRowL_upsert_other (rows : List EntryRow) (r : EntryRow)
    (c eid : String) (h : entryKeyIs r c eid = false) :
    findEntryRowL (upsertEntryRow rows r) c eid = findEntryRowL rows c eid := by
  unfold findEntryRowL upsertEntryRow
  rw [List.find?_cons]
  have hr : entryKeyIs r c eid ≠ true := by simp [h]
  simp only [hr, if_neg, h]
  refine find_filter_of_imp _ _ rows (fun x hx => ?_)
  simp only [entryKeyIs, Bool.and_eq_true, beq_iff_eq] at hx
  simp only [Bool.not_eq_true', entryKeyIs, Bool.and_eq_false_iff]
  by_contra hcon
  simp only [Bool.and_eq_false_iff, not_or, Bool.not_eq_false, beq_iff_eq] at hcon
  apply absurd h
  simp only [entryKeyIs, Bool.and_eq_true, beq_iff_eq, hx.1 ▸ hcon.1, hx.2 ▸ hcon.2]
  simp [← hx.1, ← hx.2, hcon.1, hcon.2]

/-- The upsert loop leaves a key alone when no entry of the batch
writes it. -/
theorem findEntryRowL_foldl_untouched (c : String) (now : Nat)
    (es : List Entry) (rows : List EntryRow) (c2 eid : String)
    (h : ∀ e ∈ es, entryKeyIs (entryRowOf c now e) c2 eid = false) :
    findEntryRowL (es.foldl (pushEntryUpsert c now) rows) c2 eid =
      findEntryRowL rows c2 eid := by
  induction es generalizing rows with
  | nil => rfl
  | cons a t ih =>
    rw [List.foldl_cons]
    rw [ih (pushEntryUpsert c now rows a) (fun e he => h e (List.mem_cons_of_mem a he))]
    exact findEntryRowL_upsert_other rows (entryRowOf c now a) c2 eid
      (h a (List.mem_cons_self a t))

/-- After the upsert loop, the row of an entry that occurs in the batch
and is the only entry of the batch with its id is exactly the row built
from that entry. -/
theorem findEntryRowL_foldl_mem (c : String) (now : Nat) (es : List Entry)
    (rows : List EntryRow) (e : Entry) (he : e ∈ es)
    (hu : ∀ e2 ∈ es, e2.id = e.id → e2 = e) :
    findEntryRowL (es.foldl (pushEntryUpsert c now) rows) c e.id =
      some (entryRowOf c now e) := by
  induction es generalizing rows with
  | nil => cases he
  | cons a t ih =>
    rw [List.foldl_cons]
    by_cases het : e ∈ t
    · exact ih (pushEntryUpsert c now rows a) het
        (fun e2 he2 => hu e2 (List.mem_cons_of_mem a he2))
    · have hae : a = e := by
        rcases List.mem_cons.mp he with h1 | h1
        · exact h1.symm
        · exact absurd h1 het
      subst hae
      have hnot : ∀ e2 ∈ t, entryKeyIs (entryRowOf c now e2) c a.id = false := by
        intro e2 he2
        have hne : e2.id ≠ a.id := by
          intro hid
          exact het (hu e2 (List.mem_cons_of_mem a he2) hid ▸ he2)
        simp [entryKeyIs, entryRowOf, hne]
      rw [findEntryRowL_foldl_untouched c now t _ c a.id hnot]
      have := findEntryRowL_upsert_self rows (entryRowOf c now a)
      simpa [entryRowOf] using this

/-- An upsert never erases a key: every row present beforehand still has
a row under its key afterwards. -/
theorem upsert_preserves_key (rows : List EntryRow) (r0 r : EntryRow)
    (hr : r ∈ rows) :
    ∃ r2 ∈ upsertEntryRow rows r0,
      r2.family_code = r.family_code ∧ r2.entry_id = r.entry_id := by
  by_cases h : entryKeyIs r r0.family_code r0.entry_id = true
  · refine ⟨r0, List.mem_cons_self _ _, ?_⟩
    simp only [entryKeyIs, Bool.and_eq_true, beq_iff_eq] at h
    exact ⟨h.1.symm, h.2.symm⟩
  · have hf : entryKeyIs r r0.family_code r0.entry_id = false :=
      Bool.eq_false_iff.mpr h
    exact ⟨r, List.mem_cons_of_mem _ (List.mem_filter.mpr ⟨hr, by simp [hf]⟩),
      rfl, rfl⟩

/-- The upsert loop of a push never erases a key. -/
theorem foldl_preserves_key (c : String) (now : Nat) (es : List Entry)
    (rows : List EntryRow) (r : EntryRow) (hr : r ∈ rows) :
    ∃ r2 ∈ es.foldl (pushEntryUpsert c now) rows,
      r2.family_code = r.family_code ∧ r2.entry_id = r.entry_id := by
  induction es generalizing rows r with
  | nil => exact ⟨r, hr, rfl, rfl⟩
  | cons a t ih =>
    rw [List.foldl_cons]
    obtain ⟨r2, hr2, hk1, hk2⟩ := upsert_preserves_key rows (entryRowOf c now a) r hr
    obtain ⟨r3, hr3, hk3, hk4⟩ := ih (pushEntryUpsert c now rows a) r2 hr2
    exact ⟨r3, hr3, hk3.trans hk1, hk4.trans hk2⟩

/-- find? commutes with a map that does not change the predicate. -/
theorem find_map_congr {α : Type} (g : α → α) (p : α → Bool) (l : List α)
    (h : ∀ x, p (g x) = p x) :
    (l.map g).find? p = (l.find? p).map g := by
  induction l with
  | nil => rfl
  | cons a t ih =>
    by_cases hp : p a = true <;>
      simp [List.find?_cons, h a, hp, ih]

/-- touchFamily does not change the code of a row. -/
theorem touchFamily_code (c : String) (now : Nat) (f : FamilyRow) :
    (touchFamily c now f).code = f.code := by
  unfold touchFamily
  by_cases h : f.code = c <;> simp [h]

/-- annotate keeps the id of the stored entry. -/
theorem annotate_id (r : EntryRow) : (annotate r).id = r.data.id := by
  unfold annotate
  by_cases h : r.deleted <;> simp [h]

/-- jsToUpper of the empty string. -/
theorem jsToUpper_empty : jsToUpper "" = "" := rfl

/-- Entries table after a successful push with a nonempty batch: the
upsert loop applied to the old table. -/
theorem push_ok_entries (s : Store) (now : Nat) (c d : String)
    (babies : Option (List String)) (es : List Entry) (f : FamilyRow)
    (hc : c ≠ "") (hd : d ≠ "") (hff : findFamily s c = some f)
    (hne : es ≠ []) :
    (push s now (some c) (some d) babies (some es)).2.entries =
      es.foldl (pushEntryUpsert c now) s.entries := by
  have hlen : es.length > 0 := List.length_pos.mpr hne
  simp [push, hc, hd, hff, hlen]

/-- Families table after a successful push: every row kept, the pushed
family touched. -/
theorem push_ok_families (s : Store) (now : Nat) (c d : String)
    (babies : Option (List String)) (ents : Option (List Entry))
    (f : FamilyRow) (hc : c ≠ "") (hd : d ≠ "")
    (hff : findFamily s c = some f) :
    (push s now (some c) (some d) babies ents).2.families =
      s.families.map (touchFamily c now) := by
  by_cases hlen : (ents.getD [] : List Entry).length > 0 <;>
    simp [push, hc, hd, hff, hlen]

/-- Sync table after a successful push: the snapshot row upserted. -/
theorem push_ok_sync (s : Store) (now : Nat) (c d : String)
    (babies : Option (List String)) (ents : Option (List Entry))
    (f : FamilyRow) (hc : c ≠ "") (hd : d ≠ "")
    (hff : findFamily s c = some f) :
    (push s now (some c) (some d) babies ents).2.sync_data =
      upsertSyncRow s.sync_data
        { family_code := c, device_id := d
          data := babies.getD [], updated_at := now } := by
  by_cases hlen : (ents.getD [] : List Entry).length > 0 <;>
    simp [push, hc, hd, hff, hlen]

/-- The family pushed to is still found after the push. -/
theorem push_ok_findFamily (s : Store) (now : Nat) (c d : String)
    (babies : Option (List String)) (ents : Option (List Entry))
    (f : FamilyRow) (hc : c ≠ "") (hd : d ≠ "")
    (hff : findFamily s c = some f) :
    findFamily (push s now (some c) (some d) babies ents).2 c =
      some (touchFamily c now f) := by
  have h1 := push_ok_families s now c d babies ents f hc hd hff
  unfold findFamily at hff ⊢
  rw [h1]
  rw [find_map_congr (touchFamily c now) _ s.families
    (fun x => by rw [touchFamily_code])]
  rw [hff]
  rfl

/-- A second concrete store, with the canonical code AB23CD of the
scenario in the spec. -/
def famStoreAB : Store :=
  { families := [{ code := "AB23CD", created_at := 50, last_sync := 50 }]
    sync_data := []
    entries := [] }

/-- A store where device d1 has already pushed a nonempty profile
snapshot for family ABCDEF. -/
def famStoreWithSnap : Store :=
  { families := [{ code := "ABCDEF", created_at := 50, last_sync := 50 }]
    sync_data := [{ family_code := "ABCDEF", device_id := "d1"
                    data := ["b1"], updated_at := 10 }]
    entries := [] }

/-- C4: a push whose family code is not present in the families store
fails with NotFound (HTTP 404) and leaves the store completely
unchanged: no snapshot row, no entry row, and no last_sync update is
written. -/
theorem push_unknown_family_rejected (s : Store) (now : Nat) (c d : String)
    (babies : Option (List String)) (ents : Option (List Entry))
    (hc : c ≠ "") (hd : d ≠ "") (hf : findFamily s c = none) :
    push s now (some c) (some d) babies ents = (.notFound, s) := by
  simp [push, hc, hd, hf]

/-- Witness for push_unknown_family_rejected: pushing to the unknown
code ZZZZZZ on the concrete store fails and returns the store as is. -/
theorem push_unknown_family_rejected_witness :
    push famStore 300 (some "ZZZZZZ") (some "d1") none (some [entE1]) =
      (.notFound, famStore) :=
  push_unknown_family_rejected famStore 300 "ZZZZZZ" "d1" none (some [entE1])
    (by decide) (by decide) (by decide)

/-- C7: a join whose code is missing or has any length other than 6
fails with InvalidArgument (HTTP 400), for every store, so regardless of
which families exist: the store is not consulted. -/
theorem join_bad_length_rejected (s : Store) (code : Option String)
    (h : code = none ∨ ∃ c, code = some c ∧ c.length ≠ 6) :
    join s code = .badRequest := by
  rcases h with h | ⟨c, hc, hlen⟩
  · subst h
    rfl
  · subst hc
    simp [join, hlen]

/-- Witness for join_bad_length_rejected: a 5-character prefix of an
existing code, and a missing code, on a store that does hold a family. -/
theorem join_bad_length_rejected_witness :
    join famStore (some "ABCDE") = .badRequest ∧
    join famStore none = .badRequest :=
  ⟨join_bad_length_rejected famStore (some "ABCDE")
      (Or.inr ⟨"ABCDE", rfl, by decide⟩),
   join_bad_length_rejected famStore none (Or.inl rfl)⟩

/-- C10: a successful push with the babies field omitted still replaces
the snapshot row of the device: the stored profile payload becomes the
empty list, whatever the device had pushed before. -/
theorem push_snapshot_overwrite_empty (s : Store) (now : Nat) (c d : String)
    (ents : Option (List Entry)) (f : FamilyRow)
    (hc : c ≠ "") (hd : d ≠ "") (hff : findFamily s c = some f) :
    findSyncRow (push s now (some c) (some d) none ents).2 c d =
      some { family_code := c, device_id := d, data := [], updated_at := now } := by
  have h1 := push_ok_sync s now c d none ents f hc hd hff
  unfold findSyncRow
  rw [h1]
  simp [upsertSyncRow, List.find?_cons, syncKeyIs]

/-- Witness for push_snapshot_overwrite_empty: the device had pushed a
nonempty profile before; a push without babies leaves it with the empty
profile. -/
theorem push_snapshot_overwrite_empty_witness :
    findSyncRow (push famStoreWithSnap 300 (some "ABCDEF") (some "d1") none none).2
        "ABCDEF" "d1" =
      some { family_code := "ABCDEF", device_id := "d1", data := [], updated_at := 300 } :=
  push_snapshot_overwrite_empty famStoreWithSnap 300 "ABCDEF" "d1" none
    { code := "ABCDEF", created_at := 50, last_sync := 50 }
    (by decide) (by decide) (by decide)

/-- C6: joining an existing family with a code whose uppercasing is the
stored code succeeds, and the response carries the stored canonical
uppercase code. -/
theorem join_case_insensitive (s : Store) (c : String) (f : FamilyRow)
    (hfind : findFamily s (jsToUpper c) = some f) (hlen : c.length = 6) :
    join s (some c) = .okCode f.code ∧ f.code = jsToUpper c := by
  have hc : c ≠ "" := by
    intro h
    subst h
    exact absurd hlen (by decide)
  have hcode : f.code = jsToUpper c := by
    have h2 := List.find?_some hfind
    simpa [beq_iff_eq] using h2
  exact ⟨by simp [join, hc, hlen, hfind], hcode⟩

/-- Witness for join_case_insensitive: the spec scenario, joining the
family AB23CD with the lowercase code. -/
theorem join_case_insensitive_witness :
    join famStoreAB (some "ab23cd") = .okCode "AB23CD" ∧
    "AB23CD" = jsToUpper "ab23cd" :=
  join_case_insensitive famStoreAB "ab23cd"
    { code := "AB23CD", created_at := 50, last_sync := 50 }
    (by decide) (by decide)

/-- C9: push and pull do not normalize the case of the family code.
When every stored code is already uppercase and the request code only
differs from a stored code by case without being equal to it, the
lookup misses: push answers NotFound and leaves the store unchanged,
and pull answers NotFound. -/
theorem sync_case_mismatch_not_found (s : Store) (now now2 : Nat)
    (c d : String) (g : FamilyRow) (babies : Option (List String))
    (ents : Option (List Entry)) (since : Option Nat)
    (hcanon : ∀ f ∈ s.families, jsToUpper f.code = f.code)
    (hg : g ∈ s.families) (hup : jsToUpper c = g.code) (hne : c ≠ g.code)
    (hd : d ≠ "") :
    push s now (some c) (some d) babies ents = (.notFound, s) ∧
    pull s now2 (some c) since = .notFound := by
  have hc : c ≠ "" := by
    intro h
    subst h
    exact hne (by simpa [jsToUpper_empty] using hup)
  have hff : findFamily s c = none := by
    cases hfc : findFamily s c with
    | none => rfl
    | some f =>
      have hmem : f ∈ s.families := List.mem_of_find?_eq_some hfc
      have hfcode : f.code = c := by
        have h2 := List.find?_some hfc
        simpa [beq_iff_eq] using h2
      have h3 := hcanon f hmem
      rw [hfcode] at h3
      exact absurd (h3.symm.trans hup) hne
  constructor
  · simp [push, hc, hd, hff]
  · simp [pull, hc, hff]

/-- Witness for sync_case_mismatch_not_found: pushing and pulling with
the lowercase variant of the stored code ABCDEF misses. -/
theorem sync_case_mismatch_not_found_witness :
    push famStore 300 (some "abcdef") (some "d1") none none =
      (.notFound, famStore) ∧
    pull famStore 301 (some "abcdef") (some 0) = .notFound :=
  sync_case_mismatch_not_found famStore 300 301 "abcdef" "d1"
    { code := "ABCDEF", created_at := 50, last_sync := 50 } none none (some 0)
    (by decide) (by decide) (by decide) (by decide) (by decide)

/-- Every code produced by the generation loop has length 6, uses only
the restricted alphabet, and is fresh for the store it was checked
against. -/
theorem genCode_props (s : Store) (rand : List (Fin 6 → Fin 32))
    (code : String) (h : genCode s rand = some code) :
    code.length = 6 ∧ (∀ ch ∈ code.data, ch ∈ codeAlphabet) ∧
    ∀ f ∈ s.families, f.code ≠ code := by
  induction rand with
  | nil => cases h
  | cons pick rest ih =>
    unfold genCode at h
    by_cases hex : codeExists s (buildCode pick) = true
    · rw [if_pos hex] at h
      exact ih h
    · rw [if_neg hex] at h
      injection h with h2
      subst h2
      refine ⟨?_, ?_, ?_⟩
      · show ((List.finRange 6).map fun i => codeChar (pick i)).length = 6
        rw [List.length_map, List.length_finRange]
      · intro ch hch
        have hch2 : ch ∈ (List.finRange 6).map fun i => codeChar (pick i) := hch
        obtain ⟨i, _, hi⟩ := List.mem_map.mp hch2
        subst hi
        exact List.get_mem codeAlphabet _ _
      · intro f hf hcode
        apply hex
        unfold codeExists
        exact List.any_eq_true.mpr ⟨f, hf, by simp [hcode]⟩

/-- C8: every code returned by CreateFamily has length exactly 6, every
character is drawn from the 32-symbol alphabet without I, O, 0 and 1,
and the code differs from every code present in the families store at
creation time. -/
theorem createFamily_code_props (s : Store) (now : Nat)
    (rand : List (Fin 6 → Fin 32)) (code : String) (s2 : Store)
    (h : createFamily s now rand = some (code, s2)) :
    code.length = 6 ∧ (∀ ch ∈ code.data, ch ∈ codeAlphabet) ∧
    ∀ f ∈ s.families, f.code ≠ code := by
  unfold createFamily at h
  cases hg : genCode s rand with
  | none =>
    rw [hg] at h
    cases h
  | some cd =>
    rw [hg] at h
    simp only [Option.map_some', Option.some.injEq, Prod.mk.injEq] at h
    obtain ⟨h1, _⟩ := h
    subst h1
    exact genCode_props s rand cd hg

/-- Witness for createFamily_code_props: a creation whose first draw is
the constant index 0 yields the code AAAAAA on the concrete store. -/
theorem createFamily_code_props_witness :
    ("AAAAAA".length = 6 ∧ (∀ ch ∈ "AAAAAA".data, ch ∈ codeAlphabet) ∧
      ∀ f ∈ famStore.families, f.code ≠ "AAAAAA") :=
  createFamily_code_props famStore 300 [fun _ => (0 : Fin 32)] "AAAAAA"
    { families := [{ code := "AAAAAA", created_at := 300, last_sync := 300 },
                   { code := "ABCDEF", created_at := 50, last_sync := 50 }]
      sync_data := []
      entries := [] }
    (by decide)

/-- C2 counterexample: the pushed entry entZero supplies its timestamp
field with the value 0, but the stored updated_at is the server receipt
time 300 rather than 0, because the source combines the two with the
JavaScript or-operator and 0 is falsy. -/
theorem push_ts_zero_cex :
    entZero.tsMark = some 0 ∧
    (findEntryRow (push famStore 300 (some "ABCDEF") (some "d1") none
        (some [entZero])).2 "ABCDEF" "e0").map EntryRow.updated_at = some 300 ∧
    (300 : Nat) ≠ 0 := by decide

/-- C2 (amended): for every entry of a pushed batch that is the only
batch member with its id, the stored updated_at equals the timestamp
field of the entry whenever that field is supplied and nonzero, and
equals the server receipt time when the field is absent or 0. -/
theorem push_updated_at_policy (s : Store) (now : Nat) (c d : String)
    (babies : Option (List String)) (es : List Entry) (e : Entry)
    (f : FamilyRow) (hc : c ≠ "") (hd : d ≠ "")
    (hff : findFamily s c = some f) (he : e ∈ es)
    (hu : ∀ e2 ∈ es, e2.id = e.id → e2 = e) :
    findEntryRow (push s now (some c) (some d) babies (some es)).2 c e.id =
      some (entryRowOf c now e) ∧
    (∀ v, e.tsMark = some v → v ≠ 0 → (entryRowOf c now e).updated_at = v) ∧
    ((e.tsMark = none ∨ e.tsMark = some 0) →
      (entryRowOf c now e).updated_at = now) := by
  have hne : es ≠ [] := by
    intro h
    subst h
    cases he
  have h1 := push_ok_entries s now c d babies es f hc hd hff hne
  refine ⟨?_, ?_, ?_⟩
  · unfold findEntryRow
    rw [h1]
    exact findEntryRowL_foldl_mem c now es s.entries e he hu
  · intro v hv hv0
    simp [entryRowOf, tsOrNow, hv, hv0]
  · intro hv
    rcases hv with hv | hv <;> simp [entryRowOf, tsOrNow, hv]

/-- Witness for push_updated_at_policy: entry entE1 with supplied
timestamp 100 is stored with updated_at 100 after a push at server
time 300. -/
theorem push_updated_at_policy_witness :
    findEntryRow (push famStore 300 (some "ABCDEF") (some "d1") none
        (some [entE1])).2 "ABCDEF" entE1.id =
      some (entryRowOf "ABCDEF" 300 entE1) ∧
    (∀ v, entE1.tsMark = some v → v ≠ 0 →
      (entryRowOf "ABCDEF" 300 entE1).updated_at = v) ∧
    ((entE1.tsMark = none ∨ entE1.tsMark = some 0) →
      (entryRowOf "ABCDEF" 300 entE1).updated_at = 300) :=
  push_updated_at_policy famStore 300 "ABCDEF" "d1" none [entE1] entE1
    { code := "ABCDEF", created_at := 50, last_sync := 50 }
    (by decide) (by decide) (by decide) (by decide) (by decide)

/-- C3: on a store whose entries table satisfies the primary-key
invariant and stores the id of each entry inside its data column, a
successful pull returns the annotated payload of a row of the family
exactly when its updated_at is strictly greater than the since
watermark; a row whose updated_at equals the watermark is not returned,
and with since 0 every family row with positive updated_at (as written
by every push at a positive server time) is returned. -/
theorem pull_strict_watermark (s : Store) (now t : Nat) (c : String)
    (ents : List Entry) (devs : List DeviceOut) (stime : Nat)
    (hpk : ∀ r ∈ s.entries, ∀ r2 ∈ s.entries,
        r.family_code = r2.family_code → r.entry_id = r2.entry_id → r = r2)
    (hid : ∀ r ∈ s.entries, r.data.id = r.entry_id)
    (hok : pull s now (some c) (some t) = .okRes ents devs stime) :
    (∀ r ∈ s.entries, r.family_code = c →
        (annotate r ∈ ents ↔ t < r.updated_at)) ∧
    (∀ x ∈ ents, ∃ r ∈ s.entries,
        r.family_code = c ∧ t < r.updated_at ∧ x = annotate r) ∧
    (t = 0 → (∀ r ∈ s.entries, 0 < r.updated_at) →
      ∀ r ∈ s.entries, r.family_code = c → annotate r ∈ ents) := by
  have hents : ents = (s.entries.filter
      (fun r => r.family_code == c && decide (t < r.updated_at))).map annotate := by
    by_cases hc : c = ""
    · rw [hc] at hok
      simp [pull] at hok
    · cases hff : findFamily s c with
      | none => simp [pull, hc, hff] at hok
      | some f =>
        simp [pull, hc, hff] at hok
        exact hok.1.symm
  have hmain : ∀ r ∈ s.entries, r.family_code = c →
      (annotate r ∈ ents ↔ t < r.updated_at) := by
    intro r hr hfam
    constructor
    · intro hmem
      rw [hents] at hmem
      obtain ⟨r2, hr2f, hann⟩ := List.mem_map.mp hmem
      obtain ⟨hr2, hp⟩ := List.mem_filter.mp hr2f
      simp only [Bool.and_eq_true, beq_iff_eq, decide_eq_true_eq] at hp
      have hdid : r2.data.id = r.data.id := by
        have h4 : (annotate r2).id = (annotate r).id := by rw [hann]
        rwa [annotate_id, annotate_id] at h4
      have hkey : r.entry_id = r2.entry_id := by
        rw [← hid r hr, ← hid r2 hr2, hdid]
      have heq : r = r2 := hpk r hr r2 hr2 (hfam.trans hp.1.symm) hkey
      rw [heq]
      exact hp.2
    · intro hlt
      rw [hents]
      exact List.mem_map_of_mem annotate
        (List.mem_filter.mpr ⟨hr, by simp [hfam, hlt]⟩)
  refine ⟨hmain, ?_, ?_⟩
  · intro x hx
    rw [hents] at hx
    obtain ⟨r, hrf, hann⟩ := List.mem_map.mp hx
    obtain ⟨hr, hp⟩ := List.mem_filter.mp hrf
    simp only [Bool.and_eq_true, beq_iff_eq, decide_eq_true_eq] at hp
    exact ⟨r, hr, hp.1, hp.2, hann.symm⟩
  · intro ht0 hpos r hr hfam
    exact (hmain r hr hfam).mpr (ht0 ▸ hpos r hr)

/-- A store with two entry rows of the same family at updated_at 100
and 50, used to witness the watermark boundary. -/
def twoEntryStore : Store :=
  { families := [{ code := "ABCDEF", created_at := 50, last_sync := 50 }]
    sync_data := []
    entries :=
      [{ family_code := "ABCDEF", entry_id := "e1", data := entE1
         deleted := false, updated_at := 100 },
       { family_code := "ABCDEF", entry_id := "e2", data := entE2
         deleted := false, updated_at := 50 }] }

/-- Witness for pull_strict_watermark: pulling family ABCDEF with
watermark 50 returns exactly the row at 100 and omits the row at
exactly 50. -/
theorem pull_strict_watermark_witness :
    (∀ r ∈ twoEntryStore.entries, r.family_code = "ABCDEF" →
        (annotate r ∈ [entE1] ↔ 50 < r.updated_at)) ∧
    (∀ x ∈ [entE1], ∃ r ∈ twoEntryStore.entries,
        r.family_code = "ABCDEF" ∧ 50 < r.updated_at ∧ x = annotate r) ∧
    ((50 : Nat) = 0 → (∀ r ∈ twoEntryStore.entries, 0 < r.updated_at) →
      ∀ r ∈ twoEntryStore.entries, r.family_code = "ABCDEF" →
        annotate r ∈ [entE1]) :=
  pull_strict_watermark twoEntryStore 400 50 "ABCDEF" [entE1] [] 400
    (by decide) (by decide) (by decide)

/-- C5: pushing a batch containing a tombstone entry stores it with the
deleted flag set, removes no row of the entries table, and a pull on the
resulting store whose watermark is below the stored updated_at returns
the payload annotated with the deletion marker instead of omitting it. -/
theorem push_tombstone_propagates (s s2 : Store) (st : PushStatus)
    (now now2 t : Nat) (c d : String) (babies : Option (List String))
    (es : List Entry) (e : Entry) (f : FamilyRow)
    (hc : c ≠ "") (hd : d ≠ "") (hff : findFamily s c = some f)
    (hpush : push s now (some c) (some d) babies (some es) = (st, s2))
    (he : e ∈ es) (hu : ∀ e2 ∈ es, e2.id = e.id → e2 = e)
    (hdel : e.deletedMark = true) (ht : t < tsOrNow e.tsMark now) :
    findEntryRow s2 c e.id = some (entryRowOf c now e) ∧
    (entryRowOf c now e).deleted = true ∧
    (∀ r ∈ s.entries, ∃ r2 ∈ s2.entries,
        r2.family_code = r.family_code ∧ r2.entry_id = r.entry_id) ∧
    (∃ ents2 devs stime,
        pull s2 now2 (some c) (some t) = .okRes ents2 devs stime ∧
        { e with deletedMark := true } ∈ ents2) := by
  have hne : es ≠ [] := by
    intro h
    subst h
    cases he
  have hs2 : s2 = (push s now (some c) (some d) babies (some es)).2 := by
    rw [hpush]
  have hent : s2.entries = es.foldl (pushEntryUpsert c now) s.entries := by
    rw [hs2]
    exact push_ok_entries s now c d babies es f hc hd hff hne
  have hrow : findEntryRow s2 c e.id = some (entryRowOf c now e) := by
    unfold findEntryRow
    rw [hent]
    exact findEntryRowL_foldl_mem c now es s.entries e he hu
  have hrmem : entryRowOf c now e ∈ s2.entries :=
    List.mem_of_find?_eq_some hrow
  have hfam2 : findFamily s2 c = some (touchFamily c now f) := by
    rw [hs2]
    exact push_ok_findFamily s now c d babies (some es) f hc hd hff
  refine ⟨hrow, by simp [entryRowOf, hdel], ?_, ?_⟩
  · intro r hr
    rw [hent]
    exact foldl_preserves_key c now es s.entries r hr
  · refine ⟨(s2.entries.filter
        (fun r => r.family_code == c && decide (t < r.updated_at))).map annotate,
      (s2.sync_data.filter (fun r => r.family_code == c)).map
        (fun r => ⟨r.device_id, r.data, r.updated_at⟩), now2, ?_, ?_⟩
    · simp [pull, hc, hfam2]
    · have hmem2 : entryRowOf c now e ∈ s2.entries.filter
          (fun r => r.family_code == c && decide (t < r.updated_at)) := by
        refine List.mem_filter.mpr ⟨hrmem, ?_⟩
        simp [entryRowOf, ht]
      have hmem3 := List.mem_map_of_mem annotate hmem2
      have hann : annotate (entryRowOf c now e) = { e with deletedMark := true } := by
        simp [annotate, entryRowOf, hdel]
      rwa [hann] at hmem3

/-- Store after pushing the tombstone entDel for e1 into twoEntryStore
at server time 500. -/
def tombStore : Store :=
  { families := [{ code := "ABCDEF", created_at := 50, last_sync := 500 }]
    sync_data := [{ family_code := "ABCDEF", device_id := "d1"
                    data := [], updated_at := 500 }]
    entries :=
      [{ family_code := "ABCDEF", entry_id := "e1", data := entDel
         deleted := true, updated_at := 200 },
       { family_code := "ABCDEF", entry_id := "e2", data := entE2
         deleted := false, updated_at := 50 }] }

/-- Witness for push_tombstone_propagates: the spec scenario, deleting
e1 at client timestamp 200 and pulling with watermark 100. -/
theorem push_tombstone_propagates_witness :
    findEntryRow tombStore "ABCDEF" entDel.id =
      some (entryRowOf "ABCDEF" 500 entDel) ∧
    (entryRowOf "ABCDEF" 500 entDel).deleted = true ∧
    (∀ r ∈ twoEntryStore.entries, ∃ r2 ∈ tombStore.entries,
        r2.family_code = r.family_code ∧ r2.entry_id = r.entry_id) ∧
    (∃ ents2 devs stime,
        pull tombStore 600 (some "ABCDEF") (some 100) = .okRes ents2 devs stime ∧
        { entDel with deletedMark := true } ∈ ents2) :=
  push_tombstone_propagates twoEntryStore tombStore (.okSynced 1) 500 600 100
    "ABCDEF" "d1" none [entDel] entDel
    { code := "ABCDEF", created_at := 50, last_sync := 50 }
    (by decide) (by decide) (by decide) (by decide) (by decide) (by decide)
    (by decide) (by decide)

/-- The store committed by the failing push of push_atomicity_cex: the
snapshot row of the push is present although the push failed. -/
def pushFailStore : Store :=
  { families := [{ code := "ABCDEF", created_at := 50, last_sync := 50 }]
    sync_data := [{ family_code := "ABCDEF", device_id := "d1"
                    data := [], updated_at := 300 }]
    entries := [] }

/-- C1 counterexample: a push of two entries to famStore whose second
entry upsert fails inside the transaction still commits the snapshot
row written by that same push, because the sync_data write is a
separate statement outside db.transaction. The claim that no row
written by a failing push is committed is false at this input. -/
theorem push_atomicity_cex :
    pushEntryFailure famStore 300 "ABCDEF" "d1" none [entE1, entE2] 1 =
      some pushFailStore ∧
    findSyncRow pushFailStore "ABCDEF" "d1" =
      some { family_code := "ABCDEF", device_id := "d1"
             data := [], updated_at := 300 } ∧
    findSyncRow famStore "ABCDEF" "d1" = none := by decide

/-- C1 (amended): the entry-batch upserts alone are atomic. When an
entry write fails mid-batch, no entry row of the push and no last_sync
update is committed, but the device-snapshot row, written by its own
earlier statement outside the transaction, is committed. -/
theorem push_failure_commits_snapshot_only (s s2 : Store) (now : Nat)
    (c d : String) (babies : Option (List String)) (es : List Entry)
    (k : Nat) (h : pushEntryFailure s now c d babies es k = some s2) :
    s2.entries = s.entries ∧ s2.families = s.families ∧
    s2.sync_data = upsertSyncRow s.sync_data (snapRowOf c d babies now) := by
  unfold pushEntryFailure at h
  by_cases hcd : c = "" ∨ d = ""
  · rw [if_pos hcd] at h
    cases h
  · rw [if_neg hcd] at h
    cases hff : findFamily s c with
    | none =>
      rw [hff] at h
      cases h
    | some f =>
      rw [hff] at h
      by_cases hk : k < es.length
      · rw [if_pos hk] at h
        injection h with h2
        subst h2
        exact ⟨rfl, rfl, rfl⟩
      · rw [if_neg hk] at h
        cases h

/-- Witness for push_failure_commits_snapshot_only at the concrete
failing push of push_atomicity_cex. -/
theorem push_failure_commits_snapshot_only_witness :
    pushFailStore.entries = famStore.entries ∧
    pushFailStore.families = famStore.families ∧
    pushFailStore.sync_data =
      upsertSyncRow famStore.sync_data (snapRowOf "ABCDEF" "d1" none 300) :=
  push_failure_commits_snapshot_only famStore pushFailStore 300 "ABCDEF" "d1"
    none [entE1, entE2] 1 (by decide)
